import Mathlib

/-!
Verification of the JPK quantitative-imaging loader and Hertz-fit engine.

Shallow embedding of the Python sources `jpkqidata.py`, `calibratejpkqidata.py`
and `hertzfit.py`.  Floating-point values are idealised as exact rationals
(`ℚ`) except where a square root is genuinely needed (the Hertz model), where
real numbers are used.  Python dictionaries are modelled as partial functions
(`Option`-valued), a missing key (`KeyError`) being `none`.  Python exceptions
are modelled with `Option`/`Except` result types.  Unbounded recursion is
modelled with explicit fuel; exhausting every fuel bound corresponds to the
Python recursion never returning.
-/

namespace Jpk

/-- Result of `Channel.get_coefficients` (`jpkqidata.py`, lines 12-42).
`ok` is a normal return, `divByZero` the uncaught `ZeroDivisionError` raised
by `offset / base_multiplier` when the base multiplier is zero, and
`outOfFuel` marks a recursion that never returns (the source recurses with no
visited set). -/
inductive CoefResult where
  | ok (multiplier offset : ℚ)
  | divByZero
  | outOfFuel
deriving DecidableEq

/-- The three `shared_data` fields read by `get_coefficients` for encoder id
`enc` (Python `self.lcd_info`) and conversion-slot name `conv`, i.e. the flat
dotted keys `lcd-info.<enc>.conversion-set.conversion.<conv>.{base-calibration-slot,
scaling.multiplier, scaling.offset}`.  The two numeric fields are stored
already `float()`-parsed. -/
structure SharedData where
  baseSlot : ℕ → String → Option String
  multiplier : ℕ → String → Option ℚ
  offset : ℕ → String → Option ℚ

/-- `Channel.get_coefficients` (`jpkqidata.py` lines 34-42; identically
`calibratejpkqidata.get_coefficients` lines 40-47, whose keys omit the encoder
id).  The `try` block looks up the three fields; any `KeyError` yields
`(1.0, 0.0)`.  Otherwise the base slot is resolved recursively (with the same
encoder id) and composed as `(bm*m, bo + o/bm)`; a zero base multiplier makes
the division raise, and that exception is not a `KeyError`, so it escapes. -/
def get_coefficients (sd : SharedData) (enc : ℕ) : ℕ → String → CoefResult
  | 0, _ => .outOfFuel
  | fuel+1, conv =>
    match sd.baseSlot enc conv, sd.multiplier enc conv, sd.offset enc conv with
    | some b, some m, some o =>
      match get_coefficients sd enc fuel b with
      | .ok bm bo => if bm = 0 then .divByZero else .ok (bm * m) (bo + o / bm)
      | r => r
    | _, _, _ => .ok 1 0

/-- Shared-data map of the doctests: slot `distance` has base `volts`
(unconfigured), multiplier 2, offset 3; slot `force` has base `distance`,
multiplier 4, offset 5. -/
def sdDoc : SharedData where
  baseSlot := fun _ s =>
    if s = "distance" then some "volts" else if s = "force" then some "distance" else none
  multiplier := fun _ s =>
    if s = "distance" then some 2 else if s = "force" then some 4 else none
  offset := fun _ s =>
    if s = "distance" then some 3 else if s = "force" then some 5 else none

/-- Shared-data map in which slot `a` resolves with multiplier 0, and slot `b`
is based on `a`, so that resolving `b` divides by zero. -/
def sdZero : SharedData where
  baseSlot := fun _ s => if s = "a" then some "volts" else if s = "b" then some "a" else none
  multiplier := fun _ s => if s = "a" then some 0 else if s = "b" then some 1 else none
  offset := fun _ s => if s = "a" then some 0 else if s = "b" then some 1 else none

/-- Shared-data map with a two-slot cycle: `a` is based on `b` and `b` on `a`,
both with multiplier 1 and offset 0. -/
def sdCyc : SharedData where
  baseSlot := fun _ s => if s = "a" then some "b" else if s = "b" then some "a" else none
  multiplier := fun _ s => if s = "a" ∨ s = "b" then some 1 else none
  offset := fun _ s => if s = "a" ∨ s = "b" then some 0 else none

/-! Channel grids (`jpkqidata.py`, `Segment.channel`, lines 48-69). -/

/-- Big-endian two's-complement decoding of four bytes into a signed 32-bit
integer, as `numpy.frombuffer(..., numpy.dtype('>i'))` does per element. -/
def beInt32 (b0 b1 b2 b3 : ℕ) : ℤ :=
  let u : ℕ := b0 % 256 * 16777216 + b1 % 256 * 65536 + b2 % 256 * 256 + b3 % 256
  if u < 2147483648 then (u : ℤ) else (u : ℤ) - 4294967296

/-- `numpy.frombuffer(buf, '>i')`: the byte string is split into consecutive
4-byte groups, each decoded big-endian signed; a length that is not a
multiple of 4 raises `ValueError` (`none`). -/
def decodeBE32 : List ℕ → Option (List ℤ)
  | [] => some []
  | b0 :: b1 :: b2 :: b3 :: rest => (decodeBE32 rest).map (beInt32 b0 b1 b2 b3 :: ·)
  | _ => none

/-- The archive entry path `index/<n>/segments/<number>/channels/<name>.dat`
(`jpkqidata.py` line 61). -/
def datPath (n segNumber : ℕ) (name : String) : String :=
  "index/" ++ toString n ++ "/segments/" ++ toString segNumber ++ "/channels/" ++ name ++ ".dat"

/-- The dense 3-D sample grid, indexed pixel-row, pixel-column, sample.
`none` is a NaN cell. -/
def Grid := ℕ → ℕ → ℕ → Option ℚ

/-- The data a `Segment` object carries when `Segment.channel` runs
(`jpkqidata.py` lines 117-127 set them): the archive (an entry path maps to
its byte string, `none` meaning the `KeyError` of `zipfile.read`), the grid
geometry and ordinal, and the metadata lookups used by `channel`:
`header['channel.<name>.lcd-info.*']` (`int()`-parsed) and
`shared_data['lcd-info.<id>.encoder.scaling.{offset,multiplier}']`
(`float()`-parsed). -/
structure Segment where
  zipread : String → Option (List ℕ)
  ilength : ℕ
  jlength : ℕ
  num_points : ℕ
  number : ℕ
  lcdOf : String → Option ℕ
  encOffset : ℕ → Option ℚ
  encMultiplier : ℕ → Option ℚ

/-- The sample-file index of pixel `(i, j)`:
`index = j+(self.ilength-1-i)*self.jlength` (`jpkqidata.py` line 59). -/
def pixelFileIndex (seg : Segment) (i j : ℕ) : ℕ :=
  j + (seg.ilength - 1 - i) * seg.jlength

/-- The slice assignment
`channel[i, j, :length] = channel_data*multiplier + offset`
(`jpkqidata.py` line 65): pixel `ij` gets the calibrated decoded samples for
the sample indices below `data.length`; every other cell is unchanged. -/
def writePixel (g : Grid) (ij : ℕ × ℕ) (data : List ℤ) (m o : ℚ) : Grid :=
  fun i j k =>
    if i = ij.1 ∧ j = ij.2 ∧ k < data.length
    then some ((data.getD k 0 : ℚ) * m + o)
    else g i j k

/-- One iteration of the pixel loop of `Segment.channel` (lines 58-67): read
the pixel's `.dat` entry (a missing entry raises `KeyError`, which is caught:
`pass`), decode it, and assign the decoded samples.  `none` models an
uncaught `ValueError`: a buffer that is not a multiple of 4 bytes, or decoded
data longer than the `num_points` extent of the slice (numpy refuses the
broadcast). -/
def fillPixel (seg : Segment) (name : String) (m o : ℚ) (g : Grid) (ij : ℕ × ℕ) :
    Option Grid :=
  match seg.zipread (datPath (pixelFileIndex seg ij.1 ij.2) seg.number name) with
  | none => some g
  | some bytes =>
    match decodeBE32 bytes with
    | none => none
    | some data =>
      if data.length ≤ seg.num_points then some (writePixel g ij data m o)
      else none

/-- The pixel loop itself: iterate `fillPixel` over a pixel list; an uncaught
exception aborts the loop. -/
def fillPixels (seg : Segment) (name : String) (m o : ℚ) :
    List (ℕ × ℕ) → Grid → Option Grid
  | [], g => some g
  | ij :: rest, g =>
    match fillPixel seg name m o g ij with
    | none => none
    | some g2 => fillPixels seg name m o rest g2

/-- `numpy.ndindex(ilength, jlength)`: all pixel pairs in row-major order. -/
def ndindex (il jl : ℕ) : List (ℕ × ℕ) :=
  (List.range il) ×ˢ (List.range jl)

/-- `Segment.channel` (lines 49-69): allocate an all-NaN
`ilength × jlength × num_points` grid, look up the channel's encoder id and
the encoder's offset and multiplier (a missing key raises `KeyError`,
uncaught here), then fill every pixel from the archive. -/
def Segment.channel (seg : Segment) (name : String) : Option Grid := do
  let lcd ← seg.lcdOf name
  let o ← seg.encOffset lcd
  let m ← seg.encMultiplier lcd
  fillPixels seg name m o (ndindex seg.ilength seg.jlength) (fun _ _ _ => none)

/-- Observation of one cell of the built grid (`none` if `channel` raised). -/
def channelCell (seg : Segment) (name : String) (i j k : ℕ) : Option (Option ℚ) :=
  (seg.channel name).map fun g => g i j k

/-- The cell contents a pixel's archive entry determines: absent entry — all
NaN; otherwise the decoded prefix, calibrated as `raw*multiplier + offset`,
then NaN. -/
def pixelCells (entry : Option (List ℕ)) (m o : ℚ) (k : ℕ) : Option ℚ :=
  match entry with
  | none => none
  | some bytes =>
    match decodeBE32 bytes with
    | none => none
    | some data =>
      if k < data.length then some ((data.getD k 0 : ℚ) * m + o) else none

/-- The affine calibration law of the spec:
`calibrate(v, m, o) = (v + o) * m`. -/
def calibrate_law (v m o : ℚ) : ℚ := (v + o) * m

/-- `Channel.calibrate` (`jpkqidata.py` lines 44-46): resolve the conversion's
coefficients, then return `(self + offset) * multiplier` element-wise over
the channel grid (NaN cells stay NaN).  `none` models a resolution that does
not return (cycle or division fault). -/
def calibrate_channel (fuel : ℕ) (sd : SharedData) (enc : ℕ) (conv : String) (g : Grid) :
    Option Grid :=
  match get_coefficients sd enc fuel conv with
  | .ok m o => some (fun i j k => (g i j k).map fun v => (v + o) * m)
  | _ => none

/-- Observation of one cell of a calibrated grid. -/
def calibrateCell (fuel : ℕ) (sd : SharedData) (enc : ℕ) (conv : String) (g : Grid)
    (i j k : ℕ) : Option (Option ℚ) :=
  (calibrate_channel fuel sd enc conv g).map fun g2 => g2 i j k

/-- The synthetic 1×1-pixel round-trip archive built in the module's test
harness (`jpkqidata.py` lines 289-340): one segment `extend` (ordinal 0) with
`num_points = 2`, channel `vDeflection` on encoder 0 with multiplier 2 and
offset 1, and the single raw big-endian int32 sample `[1]` (bytes
`00 00 00 01`). -/
def segRT : Segment where
  zipread := fun p =>
    if p = "index/0/segments/0/channels/vDeflection.dat" then some [0, 0, 0, 1] else none
  ilength := 1
  jlength := 1
  num_points := 2
  number := 0
  lcdOf := fun s => if s = "vDeflection" then some 0 else none
  encOffset := fun l => if l = 0 then some 1 else none
  encMultiplier := fun l => if l = 0 then some 2 else none

/-- A 1×2-pixel variant of the round-trip archive in which pixel `(0, 1)`
(sample-file index 1) has no `.dat` entry. -/
def segAbsent : Segment where
  zipread := fun p =>
    if p = "index/0/segments/0/channels/vDeflection.dat" then some [0, 0, 0, 1] else none
  ilength := 1
  jlength := 2
  num_points := 2
  number := 0
  lcdOf := fun s => if s = "vDeflection" then some 0 else none
  encOffset := fun l => if l = 0 then some 1 else none
  encMultiplier := fun l => if l = 0 then some 2 else none

end Jpk

namespace Jpk

/-! Segment-style index (`jpkqidata.py`, `JpkQiData.__init__` lines 109-113
and `JpkQiData.segment` line 124). -/

/-- One iteration of the style loop: insert `style → ordinal` only if the
style name is not already present in `segment_styles`. -/
def addStyle (m : String → Option ℕ) (p : ℕ × String) : String → Option ℕ :=
  match m p.2 with
  | some _ => m
  | none => fun s => if s = p.2 then some p.1 else m s

/-- The `__init__` loop over `range(segment_count)`: `styles` lists the
per-ordinal style names, `m` is the prior contents of the (class-shared)
`segment_styles` dictionary. -/
def updateSegmentStyles (m : String → Option ℕ) (styles : List String) :
    String → Option ℕ :=
  (styles.enum).foldl addStyle m

/-- The style index built from a fresh dictionary. -/
def segment_styles_of (styles : List String) : String → Option ℕ :=
  updateSegmentStyles (fun _ => none) styles

/-- The ordinal `JpkQiData.segment` assigns to `segment.number`:
`self.segment_styles[segment_style]`. -/
def segmentNumber (styles : List String) (style : String) : Option ℕ :=
  segment_styles_of styles style

end Jpk

namespace Hz

/-! The per-curve fit engine (`hertzfit.py`).  The two calls to
`scipy.optimize.curve_fit` are iterative floating-point solvers; they are
modelled by an oracle (`Solver`) giving each call's outcome: either the
fitted parameters or the exception it raises.  For the Hertz-model call the
oracle value also carries the standard errors
`perr = sqrt(diag(pcov))` extracted on the line after the call. -/

/-- The Python exceptions relevant to `fit`. -/
inductive PyErr where
  | runtimeError
  | typeError
  | indexError
  | valueError
deriving DecidableEq

/-- Outcomes of the two `curve_fit` call sites: `lineFit x y` is
`curve_fit(line, x, y)` returning `(slope, offset)`; `hertzFit x y p0` is
`curve_fit(hertz, x, y, p0)` followed by `perr = sqrt(diag(pcov))`,
returning `(popt, perr)`. -/
structure Solver where
  lineFit : List ℚ → List ℚ → Except PyErr (ℚ × ℚ)
  hertzFit : List ℚ → List ℚ → ℚ × ℚ → Except PyErr ((ℚ × ℚ) × (ℚ × ℚ))

/-- The slice index `len * .4` (used with Python 2 float-index truncation):
`int(n*0.4) = ⌊2n/5⌋`. -/
def pyFloat40 (n : ℕ) : ℕ := 2 * n / 5

/-- `line(x, slope, offset) = x*slope + offset` (`hertzfit.py` lines 16-21). -/
def line (x slope offset : ℚ) : ℚ := x * slope + offset

/-- `subtract_baseline` (`hertzfit.py` lines 87-97): fit `line` to the first
40% of the curve (by `len(xdata)`), then return
`ydata - line(xdata, *baseline)` element-wise.  A failing solve propagates
its exception; numpy would refuse the element-wise subtraction of
different-length arrays (`ValueError`) — the sources always pass equal
lengths. -/
def subtract_baseline (S : Solver) (xdata ydata : List ℚ) : Except PyErr (List ℚ) :=
  match S.lineFit (xdata.take (pyFloat40 xdata.length))
      (ydata.take (pyFloat40 xdata.length)) with
  | .error e => .error e
  | .ok (slope, offset) =>
    if ydata.length = xdata.length then
      .ok (List.zipWith (fun y x => y - line x slope offset) ydata xdata)
    else .error .valueError

/-- Arithmetic mean of a sample list. -/
def mean (l : List ℚ) : ℚ := l.sum / (l.length : ℚ)

/-- `numpy.std(l)^2` (population variance, `ddof = 0`). -/
def variance (l : List ℚ) : ℚ :=
  ((l.map fun x => (x - mean l)^2).sum) / (l.length : ℚ)

/-- Decides `d > f * sqrt v` for `v ≥ 0` using only rational arithmetic (the
comparison `data > threshold_level(...)` with
`threshold_level(data, factor) = factor * data[:len*.4].std()`); see the
lemma relating it to the real-valued comparison. -/
def gtFacSqrt (d f v : ℚ) : Bool :=
  if 0 ≤ f then decide (0 < d) && decide (f^2 * v < d^2)
  else if 0 ≤ d then !(decide (d = 0) && decide (v = 0))
  else decide (d^2 < f^2 * v)

/-- The first 40% of the curve used by `threshold_level`. -/
def thresholdSlice (data : List ℚ) : List ℚ := data.take (pyFloat40 data.length)

/-- The element-wise comparison `data > threshold_level(data, factor)`.
When the 40% slice is empty, `numpy.std` is NaN and every comparison with
NaN is False. -/
def exceedsThreshold (data : List ℚ) (factor : ℚ) (d : ℚ) : Bool :=
  if (thresholdSlice data).isEmpty then false
  else gtFacSqrt d factor (variance (thresholdSlice data))

/-- `find_fit_region_start` (`hertzfit.py` lines 37-48):
`argwhere(data > threshold_level(data, threshold_factor))[0,0]`, with the
`IndexError` of an empty result caught and turned into 0. -/
def find_fit_region_start (data : List ℚ) (threshold_factor : ℚ) : ℕ :=
  match data.findIdx? (exceedsThreshold data threshold_factor) with
  | some i => i
  | none => 0

/-- Python truthiness of the optional numeric bounds: `None` and 0 are both
falsy. -/
def truthy (a : Option ℚ) : Bool :=
  match a with
  | none => false
  | some v => decide (v ≠ 0)

/-- Truthiness of the optional integer `depthcount`. -/
def truthyInt (a : Option ℤ) : Bool :=
  match a with
  | none => false
  | some v => decide (v ≠ 0)

/-- Python slice semantics `l[a:b]` for a natural start and a possibly
negative integer end. -/
def pySlice (l : List ℚ) (a : ℕ) (b : ℤ) : List ℚ :=
  (l.take ((if b < 0 then (l.length : ℤ) + b else b).toNat.min l.length)).drop a

/-- `fit` (`hertzfit.py` lines 51-84).  Baseline subtraction runs OUTSIDE
the try block, so its exceptions propagate.  Then the start index and
`approximate_cp = xdata[fit_region_start]` (IndexError when out of range),
then the three optional bounds narrow `fit_region_end` in order: a truthy
`depthcount` caps at `start + depthcount`; a truthy `depth` caps at the
first index with `xdata < approximate_cp - depth` (an empty `argwhere` is
caught: `pass`); a truthy `setpoint` caps at the first index with
`ydata > setpoint` — this `argwhere` is NOT guarded, so an empty result
raises IndexError.  Finally `curve_fit(hertz, ...)` runs inside
`try ... except RuntimeError/TypeError`, both mapped to the NaN quadruple
`(nan, nan), (nan, nan)` (NaN is `none`). -/
def fit (S : Solver) (xdata ydata : List ℚ) (depth setpoint : Option ℚ)
    (depthcount : Option ℤ) (threshold_factor : ℚ) :
    Except PyErr ((Option ℚ × Option ℚ) × (Option ℚ × Option ℚ)) :=
  match subtract_baseline S xdata ydata with
  | .error e => .error e
  | .ok ydata2 =>
    let start := find_fit_region_start ydata2 threshold_factor
    match xdata.get? start with
    | none => .error .indexError
    | some approximate_cp =>
      let fitEnd0 : ℤ := (xdata.length : ℤ)
      let fitEnd1 : ℤ :=
        if truthyInt depthcount then min fitEnd0 ((start : ℤ) + depthcount.getD 0)
        else fitEnd0
      let fitEnd2 : ℤ :=
        if truthy depth then
          match xdata.findIdx? (fun x => decide (x < approximate_cp - depth.getD 0)) with
          | some idx => min fitEnd1 (idx : ℤ)
          | none => fitEnd1
        else fitEnd1
      match
        (if truthy setpoint then
          match ydata2.findIdx? (fun y => decide (setpoint.getD 0 < y)) with
          | some idx => Except.ok (min fitEnd2 (idx : ℤ))
          | none => Except.error PyErr.indexError
        else Except.ok fitEnd2 : Except PyErr ℤ)
      with
      | .error e => .error e
      | .ok fitEnd =>
        match S.hertzFit (pySlice xdata start fitEnd) (pySlice ydata2 start fitEnd)
            (approximate_cp, 0) with
        | .ok ((p0, p1), (e0, e1)) => .ok ((some p0, some p1), (some e0, some e1))
        | .error .runtimeError => .ok ((none, none), (none, none))
        | .error .typeError => .ok ((none, none), (none, none))
        | .error e => .error e

/-- `fit_index` (`hertzfit.py` lines 100-101): the worker task; it passes no
`depthcount` and returns the pixel index with the fit result. -/
def fit_index (S : Solver) (index : ℕ × ℕ) (xdata ydata : List ℚ)
    (depth setpoint : Option ℚ) (threshold_factor : ℚ) :
    (ℕ × ℕ) × Except PyErr ((Option ℚ × Option ℚ) × (Option ℚ × Option ℚ)) :=
  (index, fit S xdata ydata depth setpoint none threshold_factor)

/-- A 3-D input brick as `fit_all` sees it: pixel grid of curves. -/
structure Grid2 where
  rows : ℕ
  cols : ℕ
  curve : ℕ → ℕ → List ℚ

/-- The four output grids of `fit_all`.  Cells are `np.empty` garbage until
the callback writes them (`none`); a written cell holds the value (which may
itself be the NaN `none`). -/
structure FitGrids where
  cp : ℕ → ℕ → Option (Option ℚ)
  cperr : ℕ → ℕ → Option (Option ℚ)
  E : ℕ → ℕ → Option (Option ℚ)
  Eerr : ℕ → ℕ → Option (Option ℚ)

/-- A single callback write `grid[index] = value`. -/
def writeCell (m : ℕ → ℕ → Option (Option ℚ)) (ij : ℕ × ℕ) (v : Option ℚ) :
    ℕ → ℕ → Option (Option ℚ) :=
  fun i j => if i = ij.1 ∧ j = ij.2 then some v else m i j

/-- One task of `fit_all` (`hertzfit.py` lines 109-118): run `fit_index` on
the pixel's two curves; on success `fit_callback` writes
`cp[index], cperr[index], E[index], Eerr[index]`; if the worker raised, the
callback never runs and the cells keep their uninitialised contents — the
batch continues. -/
def fitAllStep (S : Solver) (H F : Grid2) (depth setpoint : Option ℚ)
    (threshold_factor : ℚ) (r : FitGrids) (ij : ℕ × ℕ) : FitGrids :=
  match (fit_index S ij (H.curve ij.1 ij.2) (F.curve ij.1 ij.2)
      depth setpoint threshold_factor).2 with
  | .ok ((p0, p1), (e0, e1)) =>
    { cp := writeCell r.cp ij p0, cperr := writeCell r.cperr ij e0,
      E := writeCell r.E ij p1, Eerr := writeCell r.Eerr ij e1 }
  | .error _ => r

/-- The four freshly allocated `np.empty(force.shape[:2])` grids. -/
def emptyGrids : FitGrids :=
  ⟨fun _ _ => none, fun _ _ => none, fun _ _ => none, fun _ _ => none⟩

/-- The task loop over `np.ndindex(E.shape)`.  The pool runs tasks
concurrently, but each callback writes only its own pixel's cells, so the
final grids equal this sequential fold. -/
def fitAllLoop (S : Solver) (H F : Grid2) (depth setpoint : Option ℚ)
    (threshold_factor : ℚ) : List (ℕ × ℕ) → FitGrids → FitGrids
  | [], r => r
  | ij :: rest, r =>
    fitAllLoop S H F depth setpoint threshold_factor rest
      (fitAllStep S H F depth setpoint threshold_factor r ij)

/-- `fit_all` (`hertzfit.py` lines 104-123): grids shaped from
`force.shape[:2]`, one independent task per pixel. -/
def fit_all (S : Solver) (H F : Grid2) (depth setpoint : Option ℚ)
    (threshold_factor : ℚ) : FitGrids :=
  fitAllLoop S H F depth setpoint threshold_factor
    (Jpk.ndindex F.rows F.cols) emptyGrids

/-- The four cell values one pixel's fit outcome determines, in the order
`(cp, cperr, E, Eerr)`; a worker exception leaves all four uninitialised. -/
def cellsOfFit (r : Except PyErr ((Option ℚ × Option ℚ) × (Option ℚ × Option ℚ))) :
    Option (Option ℚ) × Option (Option ℚ) × Option (Option ℚ) × Option (Option ℚ) :=
  match r with
  | .ok ((p0, p1), (e0, e1)) => (some p0, some e0, some p1, some e1)
  | .error _ => (none, none, none, none)

/-- A solver oracle whose baseline line-fit raises `RuntimeError` (solver
non-convergence) and whose Hertz fit converges to zeros. -/
def solverLineErr : Solver :=
  ⟨fun _ _ => .error .runtimeError, fun _ _ _ => .ok ((0, 0), (0, 0))⟩

/-- A solver oracle for which both calls converge: the baseline is the zero
line and the Hertz fit returns zeros. -/
def solverOk : Solver :=
  ⟨fun _ _ => .ok (0, 0), fun _ _ _ => .ok ((0, 0), (0, 0))⟩

/-- A 1×2-pixel height grid. -/
def gridH : Grid2 :=
  ⟨1, 2, fun _ j => if j = 0 then [5, 4, 3, 2, 1] else [9, 9, 9]⟩

/-- A 1×2-pixel force grid. -/
def gridF : Grid2 :=
  ⟨1, 2, fun _ j => if j = 0 then [0, 0, 0, 0, 0] else [1, 1, 1]⟩

/-- `gridH` with only pixel `(0, 1)`'s curve changed. -/
def gridH2 : Grid2 :=
  ⟨1, 2, fun _ j => if j = 0 then [5, 4, 3, 2, 1] else [7, 7, 7]⟩

/-! The Hertz model itself (`hertzfit.py` lines 6-13), over the reals. -/

/-- `scipy.sqrt` (`numpy.lib.scimath.sqrt`): the square root of a negative
real is the purely imaginary `1j*sqrt(-r)`. -/
noncomputable def scimath_sqrt (r : ℝ) : ℂ :=
  if 0 ≤ r then ((Real.sqrt r : ℝ) : ℂ) else Complex.I * ((Real.sqrt (-r) : ℝ) : ℂ)

/-- `hertz(x, xc, E, Rc, nu) = (4.0/3 * E/(1-nu**2) * scipy.sqrt(Rc*(xc-x)**3)).real`
(the source defaults are `Rc = 1e-6`, `nu = .5`). -/
noncomputable def hertz (x xc E Rc nu : ℝ) : ℝ :=
  (((4/3 * E / (1 - nu^2) : ℝ) : ℂ) * scimath_sqrt (Rc * (xc - x)^3)).re

/-- Modelled from the spec:
`hertz(x, xc, E; Rc, nu) = (4/3) * E / (1 - nu^2) * sqrt(Rc * max(0, xc - x)^3)`,
the depth term clamped at zero before the power. -/
noncomputable def hertz_clamped (x xc E Rc nu : ℝ) : ℝ :=
  4/3 * E / (1 - nu^2) * Real.sqrt (Rc * (max 0 (xc - x))^3)

end Hz


namespace Jpk

/-- C1 counterexample: with slot `a` resolving to multiplier 0 (base `volts`
unconfigured, multiplier 0, offset 0) and slot `b` based on `a` with
multiplier 1 and offset 1, the base slot of `b` resolves to `(0, 0)`, yet
resolving `b` raises an uncaught `ZeroDivisionError` instead of returning the
pair `(bm*multiplier, bo + offset/bm)` the claim promises. -/
theorem get_coefficients_divzero_cex :
    get_coefficients sdZero 0 2 "a" = .ok 0 0 ∧
    get_coefficients sdZero 0 3 "b" = .divByZero ∧
    get_coefficients sdZero 0 3 "b" ≠ .ok (0 * 1) (0 + 1 / (0:ℚ)) := by
  have hb : get_coefficients sdZero 0 3 "b" = .divByZero := by
    simp only [get_coefficients, sdZero, String.reduceEq, reduceIte]
    norm_num
  refine ⟨?_, hb, ?_⟩
  · simp only [get_coefficients, sdZero, String.reduceEq, reduceIte]
    norm_num
  · rw [hb]
    intro h
    exact CoefResult.noConfusion h

/-- C1 (amended): if any of the three fields `base-calibration-slot`,
`scaling.multiplier`, `scaling.offset` is absent for a slot, resolution
returns `(1.0, 0.0)`; otherwise, when the base slot recursively resolves to
`(bm, bo)` and `bm ≠ 0`, it returns `(bm*multiplier, bo + offset/bm)` (for
`bm = 0` the division raises, see the counterexample).  In particular
`distance` (base `volts` unconfigured, multiplier 2, offset 3) resolves to
`(2, 3)` and `force` (base `distance`, multiplier 4, offset 5) to
`(8, 11/2)`. -/
theorem get_coefficients_resolution (sd : SharedData) (enc : ℕ) (conv : String) (fuel : ℕ) :
    ((sd.baseSlot enc conv = none ∨ sd.multiplier enc conv = none ∨
        sd.offset enc conv = none) →
      get_coefficients sd enc (fuel+1) conv = .ok 1 0)
    ∧ (∀ b m o bm bo, sd.baseSlot enc conv = some b → sd.multiplier enc conv = some m →
        sd.offset enc conv = some o → get_coefficients sd enc fuel b = .ok bm bo → bm ≠ 0 →
        get_coefficients sd enc (fuel+1) conv = .ok (bm * m) (bo + o / bm))
    ∧ (get_coefficients sdDoc 0 2 "distance" = .ok 2 3
        ∧ get_coefficients sdDoc 0 3 "force" = .ok 8 (11/2)) := by
  refine ⟨?_, ?_, ?_, ?_⟩
  · intro h
    cases hb : sd.baseSlot enc conv <;> cases hm : sd.multiplier enc conv <;>
      cases ho : sd.offset enc conv <;> simp_all [get_coefficients]
  · intro b m o bm bo hb hm ho hrec hbm
    simp [get_coefficients, hb, hm, ho, hrec, hbm]
  · simp only [get_coefficients, sdDoc, String.reduceEq, reduceIte]
    norm_num
  · simp only [get_coefficients, sdDoc, String.reduceEq, reduceIte]
    norm_num

/-- C1 witness: the unconfigured slot `volts` resolves to `(1, 0)`, and the
configured slot `distance` composes its coefficients with those of its base
slot. -/
theorem get_coefficients_resolution_witness :
    get_coefficients sdDoc 0 2 "volts" = .ok 1 0 ∧
    get_coefficients sdDoc 0 2 "distance" = .ok (1 * 2) (0 + 3 / (1:ℚ)) :=
  ⟨(get_coefficients_resolution sdDoc 0 "volts" 1).1 (Or.inl rfl),
   (get_coefficients_resolution sdDoc 0 "distance" 1).2.1 "volts" 2 3 1 0 rfl rfl rfl
     (by simp only [get_coefficients, sdDoc, String.reduceEq, reduceIte]) one_ne_zero⟩

/-- C7: on the cyclic shared-data map (`a` based on `b`, `b` based on `a`)
the recursion of `get_coefficients` never returns, whatever recursion budget
it is given — the source tracks no visited set and defines no
`CalibrationCycleError`, so in Python the call site recurses until the
interpreter kills it, rather than failing with the error the claim names. -/
theorem get_coefficients_cycle_diverges :
    ∀ fuel, get_coefficients sdCyc 0 fuel "a" = .outOfFuel ∧
      get_coefficients sdCyc 0 fuel "b" = .outOfFuel := by
  intro fuel
  induction fuel with
  | zero => exact ⟨rfl, rfl⟩
  | succ n ih =>
    have ha : sdCyc.baseSlot 0 "a" = some "b" := by
      simp [sdCyc]
    have hb : sdCyc.baseSlot 0 "b" = some "a" := by
      simp [sdCyc]
    have hma : sdCyc.multiplier 0 "a" = some 1 := by
      simp [sdCyc]
    have hmb : sdCyc.multiplier 0 "b" = some 1 := by
      simp [sdCyc]
    have hoa : sdCyc.offset 0 "a" = some 0 := by
      simp [sdCyc]
    have hob : sdCyc.offset 0 "b" = some 0 := by
      simp [sdCyc]
    constructor
    · simp [get_coefficients, ha, hma, hoa, ih.2]
    · simp [get_coefficients, hb, hmb, hob, ih.1]

/-! Helper lemmas about the pixel loop. -/

lemma writePixel_ne (g : Grid) (ij : ℕ × ℕ) (data : List ℤ) (m o : ℚ) {i j : ℕ}
    (hne : ¬(i = ij.1 ∧ j = ij.2)) (k : ℕ) :
    writePixel g ij data m o i j k = g i j k :=
  if_neg fun hc => hne ⟨hc.1, hc.2.1⟩

lemma writePixel_self (g : Grid) (ij : ℕ × ℕ) (data : List ℤ) (m o : ℚ) (k : ℕ)
    (hg : g ij.1 ij.2 k = none) :
    writePixel g ij data m o ij.1 ij.2 k =
      (if k < data.length then some ((data.getD k 0 : ℚ) * m + o) else none) := by
  unfold writePixel
  by_cases hk : k < data.length
  · rw [if_pos ⟨rfl, rfl, hk⟩, if_pos hk]
  · rw [if_neg fun hc => hk hc.2.2, if_neg hk, hg]

lemma fillPixel_ne {seg : Segment} {name : String} {m o : ℚ} {g : Grid} {ij : ℕ × ℕ}
    {g2 : Grid} (h : fillPixel seg name m o g ij = some g2) {i j : ℕ}
    (hne : ¬(i = ij.1 ∧ j = ij.2)) (k : ℕ) : g2 i j k = g i j k := by
  unfold fillPixel at h
  split at h
  · rw [Option.some.injEq] at h
    rw [← h]
  · split at h
    · exact Option.noConfusion h
    · split at h
      · rw [Option.some.injEq] at h
        rw [← h]
        exact writePixel_ne g ij _ m o hne k
      · exact Option.noConfusion h

lemma fillPixel_self {seg : Segment} {name : String} {m o : ℚ} {g : Grid} {ij : ℕ × ℕ}
    {g2 : Grid} (h : fillPixel seg name m o g ij = some g2) (k : ℕ)
    (hg : g ij.1 ij.2 k = none) :
    g2 ij.1 ij.2 k =
      pixelCells (seg.zipread (datPath (pixelFileIndex seg ij.1 ij.2) seg.number name))
        m o k := by
  unfold fillPixel at h
  split at h
  · next hz =>
      rw [Option.some.injEq] at h
      rw [← h, hz, hg]
      rfl
  · next bytes hz =>
      rw [hz]
      split at h
      · exact Option.noConfusion h
      · next data hd =>
          split at h
          · rw [Option.some.injEq] at h
            rw [← h]
            simp only [pixelCells, hd]
            exact writePixel_self g ij data m o k hg
          · exact Option.noConfusion h

lemma fillPixels_notmem {seg : Segment} {name : String} {m o : ℚ} :
    ∀ (l : List (ℕ × ℕ)) (g g2 : Grid), fillPixels seg name m o l g = some g2 →
      ∀ i j k, (i, j) ∉ l → g2 i j k = g i j k := by
  intro l
  induction l with
  | nil =>
    intro g g2 h i j k _
    unfold fillPixels at h
    rw [Option.some.injEq] at h
    rw [← h]
  | cons ij rest ih =>
    intro g g2 h i j k hmem
    unfold fillPixels at h
    split at h
    · exact Option.noConfusion h
    · next g1 hfp =>
        have h1 : g2 i j k = g1 i j k :=
          ih g1 g2 h i j k fun hm => hmem (List.mem_cons_of_mem _ hm)
        have h2 : g1 i j k = g i j k := by
          refine fillPixel_ne hfp (fun hc => hmem ?_) k
          have hij : (i, j) = ij := by
            rw [hc.1, hc.2]
          rw [hij]
          exact List.mem_cons_self _ _
        rw [h1, h2]

lemma fillPixels_append {seg : Segment} {name : String} {m o : ℚ} :
    ∀ (l1 l2 : List (ℕ × ℕ)) (g : Grid),
      fillPixels seg name m o (l1 ++ l2) g =
        (match fillPixels seg name m o l1 g with
          | none => none
          | some g1 => fillPixels seg name m o l2 g1) := by
  intro l1
  induction l1 with
  | nil => intro l2 g; rfl
  | cons ij rest ih =>
    intro l2 g
    simp only [List.cons_append, fillPixels]
    cases hfp : fillPixel seg name m o g ij with
    | none => rfl
    | some g1 => exact ih l2 g1

lemma mem_ndindex {il jl i j : ℕ} (hi : i < il) (hj : j < jl) :
    (i, j) ∈ ndindex il jl := by
  unfold ndindex
  exact List.mem_product.mpr ⟨List.mem_range.mpr hi, List.mem_range.mpr hj⟩

lemma nodup_ndindex (il jl : ℕ) : (ndindex il jl).Nodup :=
  List.Nodup.product (List.nodup_range il) (List.nodup_range jl)

/-- The central characterisation of `Segment.channel`: when the build
returns, each in-range pixel's sample vector is exactly what that pixel's own
archive entry at `index/<j+(ilength-1-i)*jlength>/...` determines. -/
lemma channel_cells_aux {seg : Segment} {name : String} {g : Grid} {lcd : ℕ} {m o : ℚ}
    (hchan : seg.channel name = some g) (hlcd : seg.lcdOf name = some lcd)
    (hoff : seg.encOffset lcd = some o) (hmul : seg.encMultiplier lcd = some m)
    {i j : ℕ} (hi : i < seg.ilength) (hj : j < seg.jlength) (k : ℕ) :
    g i j k =
      pixelCells (seg.zipread (datPath (pixelFileIndex seg i j) seg.number name))
        m o k := by
  unfold Segment.channel at hchan
  rw [hlcd] at hchan
  simp only [Option.bind_eq_bind, Option.some_bind] at hchan
  rw [hoff] at hchan
  simp only [Option.some_bind] at hchan
  rw [hmul] at hchan
  simp only [Option.some_bind] at hchan
  obtain ⟨l1, l2, hsplit⟩ := List.append_of_mem (mem_ndindex hi hj)
  have hnodup := nodup_ndindex seg.ilength seg.jlength
  rw [hsplit] at hchan hnodup
  have hd := List.nodup_append.mp hnodup
  have hnotl2 : (i, j) ∉ l2 := (List.nodup_cons.mp hd.2.1).1
  have hnotl1 : (i, j) ∉ l1 := fun hm => hd.2.2 hm (List.mem_cons_self _ _)
  rw [fillPixels_append] at hchan
  rcases hpre : fillPixels seg name m o l1 (fun _ _ _ => none) with _ | g1 <;>
    rw [hpre] at hchan
  · exact Option.noConfusion hchan
  · unfold fillPixels at hchan
    rcases hfp : fillPixel seg name m o g1 (i, j) with _ | g2 <;> rw [hfp] at hchan
    · exact Option.noConfusion hchan
    · have hstep : g i j k = g2 i j k := fillPixels_notmem l2 g2 g hchan i j k hnotl2
      have hg1 : g1 i j k = none := fillPixels_notmem l1 _ g1 hpre i j k hnotl1
      rw [hstep]
      exact fillPixel_self hfp k hg1

/-- Cells of the round-trip archive's grid, observed through `channelCell`:
each is what the single present entry `[0,0,0,1]` determines with multiplier
2 and offset 1. -/
lemma channelCell_segRT (k : ℕ) :
    channelCell segRT "vDeflection" 0 0 k =
      some (pixelCells (some [0, 0, 0, 1]) 2 1 k) := by
  obtain ⟨g, hg⟩ := Option.isSome_iff_exists.mp
    (show (segRT.channel "vDeflection").isSome = true from rfl)
  have h := channel_cells_aux hg rfl rfl rfl Nat.one_pos Nat.one_pos k
  rw [show segRT.zipread (datPath (pixelFileIndex segRT 0 0) segRT.number "vDeflection")
        = some [0, 0, 0, 1] from rfl] at h
  show (segRT.channel "vDeflection").map (fun g => g 0 0 k) = _
  rw [hg, Option.map_some', h]

/-- C3: for the synthetic 1×1-pixel round-trip archive (segment `extend`,
`num_points = 2`, channel `vDeflection` holding the single raw big-endian
int32 sample `[1]`, encoder multiplier 2 and offset 1) the built grid has
value 3 at `[0,0,0]` and NaN at `[0,0,1]`; and in general, whenever a pixel's
decoded sample sequence is present, exactly the available prefix is filled
(as `raw*multiplier + offset`) and every trailing sample index stays NaN,
the build returning normally. -/
theorem channel_roundtrip_truncation :
    (channelCell segRT "vDeflection" 0 0 0 = some (some 3)
      ∧ channelCell segRT "vDeflection" 0 0 1 = some none)
    ∧ ∀ (seg : Segment) (name : String) (g : Grid) (lcd : ℕ) (m o : ℚ) (i j : ℕ)
        (bytes : List ℕ) (data : List ℤ),
        seg.channel name = some g →
        seg.lcdOf name = some lcd → seg.encOffset lcd = some o →
        seg.encMultiplier lcd = some m →
        i < seg.ilength → j < seg.jlength →
        seg.zipread (datPath (pixelFileIndex seg i j) seg.number name) = some bytes →
        decodeBE32 bytes = some data →
        (∀ k, k < data.length → g i j k = some ((data.getD k 0 : ℚ) * m + o))
        ∧ (∀ k, data.length ≤ k → g i j k = none) := by
  constructor
  · constructor
    · rw [channelCell_segRT 0]
      show some (some ((1 : ℚ) * 2 + 1)) = some (some 3)
      norm_num
    · rw [channelCell_segRT 1]
      rfl
  · intro seg name g lcd m o i j bytes data hchan hlcd hoff hmul hi hj hz hd
    have hcell : ∀ k, g i j k =
        (if k < data.length then some ((data.getD k 0 : ℚ) * m + o) else none) := by
      intro k
      rw [channel_cells_aux hchan hlcd hoff hmul hi hj k, hz]
      simp only [pixelCells, hd]
    constructor
    · intro k hk
      rw [hcell k, if_pos hk]
    · intro k hk
      rw [hcell k, if_neg (Nat.not_lt.mpr hk)]

/-- C3 witness: the general truncation statement applied to the round-trip
archive at pixel `(0, 0)` with decoded data `[1]`: the prefix cell holds
`1*2 + 1` and the trailing cell is NaN. -/
theorem channel_roundtrip_truncation_witness :
    channelCell segRT "vDeflection" 0 0 0 = some (some ((1 : ℚ) * 2 + 1))
    ∧ channelCell segRT "vDeflection" 0 0 1 = some none := by
  obtain ⟨g, hg⟩ := Option.isSome_iff_exists.mp
    (show (segRT.channel "vDeflection").isSome = true from rfl)
  have h := channel_roundtrip_truncation.2 segRT "vDeflection" g 0 2 1 0 0
    [0, 0, 0, 1] [1] hg rfl rfl rfl Nat.one_pos Nat.one_pos rfl rfl
  have hmap : ∀ k, channelCell segRT "vDeflection" 0 0 k = some (g 0 0 k) := by
    intro k
    show (segRT.channel "vDeflection").map (fun g => g 0 0 k) = _
    rw [hg, Option.map_some']
  constructor
  · rw [hmap 0, h.1 0 Nat.one_pos]
    norm_num
  · rw [hmap 1, h.2 1 Nat.le.refl]

/-- C4: the grid builder reads pixel `(i, j)`'s samples from archive entry
`index/<n>/segments/<ordinal>/channels/<name>.dat` with
`n = j + (ilength-1-i)*jlength`, and each in-range cell is exactly what that
entry determines — in particular an absent entry leaves the pixel's entire
sample vector NaN (second conjunct) rather than raising. -/
theorem channel_pixel_file_mapping :
    (∀ (seg : Segment) (name : String) (g : Grid) (lcd : ℕ) (m o : ℚ) (i j : ℕ),
        seg.channel name = some g →
        seg.lcdOf name = some lcd → seg.encOffset lcd = some o →
        seg.encMultiplier lcd = some m →
        i < seg.ilength → j < seg.jlength →
        ∀ k, g i j k =
          pixelCells
            (seg.zipread
              (datPath (j + (seg.ilength - 1 - i) * seg.jlength) seg.number name))
            m o k)
    ∧ ∀ (m o : ℚ) (k : ℕ), pixelCells none m o k = none := by
  constructor
  · intro seg name g lcd m o i j hchan hlcd hoff hmul hi hj k
    exact channel_cells_aux hchan hlcd hoff hmul hi hj k
  · intro m o k
    rfl

/-- C4 witness: in the 1×2-pixel archive whose pixel `(0, 1)` (sample-file
index `1 + (1-1-0)*2 = 1`) has no `.dat` entry, that pixel's cells stay NaN,
while pixel `(0, 0)` reads the entry at index 0. -/
theorem channel_pixel_file_mapping_witness :
    channelCell segAbsent "vDeflection" 0 1 0 = some none
    ∧ channelCell segAbsent "vDeflection" 0 1 1 = some none
    ∧ channelCell segAbsent "vDeflection" 0 0 0 = some (some ((1 : ℚ) * 2 + 1)) := by
  obtain ⟨g, hg⟩ := Option.isSome_iff_exists.mp
    (show (segAbsent.channel "vDeflection").isSome = true from rfl)
  have h1 := channel_pixel_file_mapping.1 segAbsent "vDeflection" g 0 2 1 0 1
    hg rfl rfl rfl Nat.one_pos (by decide)
  have h0 := channel_pixel_file_mapping.1 segAbsent "vDeflection" g 0 2 1 0 0
    hg rfl rfl rfl Nat.one_pos (by decide)
  have hmap : ∀ j k, channelCell segAbsent "vDeflection" 0 j k = some (g 0 j k) := by
    intro j k
    show (segAbsent.channel "vDeflection").map (fun g => g 0 j k) = _
    rw [hg, Option.map_some']
  refine ⟨?_, ?_, ?_⟩
  · rw [hmap 1 0, h1 0]
    rfl
  · rw [hmap 1 1, h1 1]
    rfl
  · rw [hmap 0 0, h0 0]
    rfl

/-- C2 counterexample: in the round-trip archive the raw sample 1 with
encoder multiplier 2 and offset 1 is stored by the grid builder as
`1*2 + 1 = 3`, whereas the affine law gives `calibrate(1, 2, 1) = (1+1)*2 = 4`:
the grid builder does not apply the `(value + offset) * multiplier` law the
claim says it shares with `Channel.calibrate`. -/
theorem calibrate_law_grid_builder_cex :
    channelCell segRT "vDeflection" 0 0 0 = some (some 3)
    ∧ calibrate_law 1 2 1 = 4
    ∧ channelCell segRT "vDeflection" 0 0 0 ≠ some (some (calibrate_law 1 2 1)) := by
  have hc : channelCell segRT "vDeflection" 0 0 0 = some (some 3) := by
    rw [channelCell_segRT 0]
    show some (some ((1 : ℚ) * 2 + 1)) = some (some 3)
    norm_num
  have hl : calibrate_law 1 2 1 = 4 := by
    unfold calibrate_law
    norm_num
  refine ⟨hc, hl, ?_⟩
  rw [hc, hl]
  intro h
  rw [Option.some.injEq, Option.some.injEq] at h
  norm_num at h

/-- C2 (amended): the affine law `calibrate(v, m, o) = (v + o) * m` is what
`Channel.calibrate` applies element-wise with the resolved conversion
coefficients; the grid builder, however, calibrates each raw encoder sample
as `raw*multiplier + offset` (multiply then add), which coincides with the
law only when `offset = 0` or `multiplier = 1`. -/
theorem calibrate_affine_laws :
    (∀ (fuel : ℕ) (sd : SharedData) (enc : ℕ) (conv : String) (g : Grid) (m o : ℚ)
        (i j k : ℕ), get_coefficients sd enc fuel conv = .ok m o →
        calibrateCell fuel sd enc conv g i j k =
          some ((g i j k).map fun v => calibrate_law v m o))
    ∧ ∀ (seg : Segment) (name : String) (g : Grid) (lcd : ℕ) (m o : ℚ)
        (i j : ℕ) (bytes : List ℕ) (data : List ℤ),
        seg.channel name = some g →
        seg.lcdOf name = some lcd → seg.encOffset lcd = some o →
        seg.encMultiplier lcd = some m →
        i < seg.ilength → j < seg.jlength →
        seg.zipread (datPath (pixelFileIndex seg i j) seg.number name) = some bytes →
        decodeBE32 bytes = some data →
        ∀ k, k < data.length → g i j k = some ((data.getD k 0 : ℚ) * m + o) := by
  constructor
  · intro fuel sd enc conv g m o i j k h
    unfold calibrateCell calibrate_channel calibrate_law
    rw [h]
    rfl
  · intro seg name g lcd m o i j bytes data hchan hlcd hoff hmul hi hj hz hd k hk
    have h := channel_cells_aux hchan hlcd hoff hmul hi hj k
    rw [hz] at h
    simp only [pixelCells, hd] at h
    rw [h, if_pos hk]

/-- C2 (amended) witness: with the doctest coefficients `(2, 3)` for slot
`distance`, `Channel.calibrate` maps a cell holding 1 to `(1+3)*2`, while the
grid builder of the round-trip archive stores raw 1 as `1*2 + 1`. -/
theorem calibrate_affine_laws_witness :
    calibrateCell 2 sdDoc 0 "distance" (fun _ _ _ => some 1) 0 0 0 =
      some (some (calibrate_law 1 2 3))
    ∧ channelCell segRT "vDeflection" 0 0 0 = some (some ((1 : ℚ) * 2 + 1)) := by
  have hco : get_coefficients sdDoc 0 2 "distance" = .ok 2 3 := by
    simp only [get_coefficients, sdDoc, String.reduceEq, reduceIte]
    norm_num
  constructor
  · rw [calibrate_affine_laws.1 2 sdDoc 0 "distance" (fun _ _ _ => some 1) 2 3 0 0 0 hco]
    rfl
  · obtain ⟨g, hg⟩ := Option.isSome_iff_exists.mp
      (show (segRT.channel "vDeflection").isSome = true from rfl)
    have h := calibrate_affine_laws.2 segRT "vDeflection" g 0 2 1 0 0
      [0, 0, 0, 1] [1] hg rfl rfl rfl Nat.one_pos Nat.one_pos rfl rfl 0 Nat.one_pos
    show (segRT.channel "vDeflection").map (fun g => g 0 0 0) = _
    rw [hg, Option.map_some', h]
    norm_num

end Jpk

namespace Jpk

/-- The style loop never remaps a present name, and gives an absent name the
index of its first occurrence, shifted by the enumeration start. -/
lemma updateStyles_lookup :
    ∀ (styles : List String) (k : ℕ) (m : String → Option ℕ) (s : String),
      (List.enumFrom k styles).foldl addStyle m s =
        match m s with
        | some n => some n
        | none => (styles.findIdx? (fun t => t == s)).map (· + k) := by
  intro styles
  induction styles with
  | nil =>
    intro k m s
    cases hms : m s <;> simp [List.enumFrom, hms]
  | cons a tl ih =>
    intro k m s
    show (List.enumFrom (k+1) tl).foldl addStyle (addStyle m (k, a)) s = _
    rw [ih (k+1) (addStyle m (k, a)) s]
    by_cases hma : m a = none
    · by_cases hsa : s = a
      · subst hsa
        rw [hma]
        have h1 : addStyle m (k, s) s = some k := by
          simp [addStyle, hma]
        rw [h1]
        simp [List.findIdx?_cons]
      · have h1 : addStyle m (k, a) s = m s := by
          simp [addStyle, hma, hsa]
        rw [h1]
        cases hms : m s with
        | some n => rfl
        | none =>
          have hne : (a == s) = false := by
            simp
            exact fun h => hsa h.symm
          simp [List.findIdx?_cons, hne, List.findIdx?_start_succ, Option.map_map]
          congr 1
          funext i
          omega
    · obtain ⟨v, hv⟩ := Option.ne_none_iff_exists'.mp hma
      have h1 : addStyle m (k, a) = m := by
        simp [addStyle, hv]
      rw [h1]
      cases hms : m s with
      | some n => rfl
      | none =>
        have hsa : ¬(s = a) := fun h => by
          rw [h, hv] at hms
          exact Option.noConfusion hms
        have hne : (a == s) = false := by
          simp
          exact fun h => hsa h.symm
        simp [List.findIdx?_cons, hne, List.findIdx?_start_succ, Option.map_map]
        congr 1
        funext i
        omega

/-- C9: the segment-style index maps each style name to the ordinal of its
first occurrence: a name already present in the dictionary is never remapped
(first conjunct, for any prior dictionary contents), a fresh build maps each
name to its first index among the declared segments, and for segments styled
`extend` (0), `retract` (1), `extend` (2), `segment("extend")` resolves to
ordinal 0, never 2. -/
theorem segment_styles_first_wins :
    (∀ (m : String → Option ℕ) (styles : List String) (s : String),
        updateSegmentStyles m styles s =
          match m s with
          | some n => some n
          | none => styles.findIdx? (fun t => t == s))
    ∧ segmentNumber ["extend", "retract", "extend"] "extend" = some 0
    ∧ segmentNumber ["extend", "retract", "extend"] "extend" ≠ some 2 := by
  have hmain : ∀ (m : String → Option ℕ) (styles : List String) (s : String),
      updateSegmentStyles m styles s =
        match m s with
        | some n => some n
        | none => styles.findIdx? (fun t => t == s) := by
    intro m styles s
    show (styles.enum).foldl addStyle m s = _
    rw [show styles.enum = List.enumFrom 0 styles from rfl, updateStyles_lookup styles 0 m s]
    cases m s with
    | some n => rfl
    | none => simp
  refine ⟨hmain, ?_, ?_⟩
  · show segment_styles_of ["extend", "retract", "extend"] "extend" = some 0
    rw [show segment_styles_of ["extend", "retract", "extend"] "extend"
          = updateSegmentStyles (fun _ => none) ["extend", "retract", "extend"] "extend"
        from rfl]
    rw [hmain]
    rfl
  · show segmentNumber ["extend", "retract", "extend"] "extend" ≠ some 2
    rw [show segmentNumber ["extend", "retract", "extend"] "extend"
          = updateSegmentStyles (fun _ => none) ["extend", "retract", "extend"] "extend"
        from rfl]
    rw [hmain]
    intro h
    simp at h

end Jpk

namespace Hz

/-- C10: the optional bounds are tested for truthiness, not for being
`None`: passing 0 for `depth`, `setpoint` or `depthcount` yields exactly the
same fit as leaving the bound absent — in particular a call with
`setpoint = 0` never narrows the fit region by the setpoint condition. -/
theorem fit_truthiness_zero_bounds :
    ∀ (S : Solver) (xdata ydata : List ℚ) (depth setpoint : Option ℚ)
      (depthcount : Option ℤ) (tf : ℚ),
      fit S xdata ydata (some 0) setpoint depthcount tf
          = fit S xdata ydata none setpoint depthcount tf
      ∧ fit S xdata ydata depth (some 0) depthcount tf
          = fit S xdata ydata depth none depthcount tf
      ∧ fit S xdata ydata depth setpoint (some 0) tf
          = fit S xdata ydata depth setpoint none tf := by
  intro S xdata ydata depth setpoint depthcount tf
  have h1 : truthy (some 0) = false := by simp [truthy]
  have h2 : truthy none = false := rfl
  have h3 : truthyInt (some 0) = false := by simp [truthyInt]
  have h4 : truthyInt none = false := rfl
  refine ⟨?_, ?_, ?_⟩ <;>
    simp only [fit, h1, h2, h3, h4, Bool.false_eq_true, if_false]

end Hz


namespace Hz

/-- The baseline subtraction of `solverOk` on the test curve leaves the
all-zero force curve unchanged. -/
lemma subtract_baseline_solverOk :
    subtract_baseline solverOk [5, 4, 3, 2, 1] [0, 0, 0, 0, 0] = .ok [0, 0, 0, 0, 0] := by
  simp only [subtract_baseline, solverOk, pyFloat40, line, List.zipWith]
  norm_num

/-- No sample of the all-zero baseline-subtracted curve exceeds the noise
threshold. -/
lemma exceeds_zeros : exceedsThreshold [0, 0, 0, 0, 0] 5 0 = false := by
  simp only [exceedsThreshold, thresholdSlice, pyFloat40, gtFacSqrt]
  norm_num [variance, mean]

/-- Hence the fit region of the all-zero curve starts at index 0. -/
lemma ffrs_zeros : find_fit_region_start [0, 0, 0, 0, 0] 5 = 0 := by
  simp only [find_fit_region_start, List.findIdx?_cons, exceeds_zeros, List.findIdx?_nil]
  rfl

/-- C5: `fit` does NOT return normally on every input — a baseline-fit
failure propagates out of `subtract_baseline` uncaught (first conjunct: the
line fit raises `RuntimeError` and `fit` re-raises it instead of returning
the NaN quadruple), and with a truthy `setpoint` exceeded by no sample the
unguarded `argwhere(...)[0,0]` raises `IndexError` (second conjunct). -/
theorem fit_propagates_exceptions :
    fit solverLineErr [0, 1, 2, 3, 4] [0, 0, 0, 0, 0] none none none 5
        = .error .runtimeError
    ∧ fit solverOk [5, 4, 3, 2, 1] [0, 0, 0, 0, 0] none (some 1) none 5
        = .error .indexError := by
  constructor
  · rfl
  · have h1 : truthy (some 1) = true := by simp [truthy]
    have hfind : (List.findIdx? (fun y => decide ((1:ℚ) < y)) [0, 0, 0, 0, 0]) = none := by
      simp only [List.findIdx?_cons, List.findIdx?_nil]
      norm_num
    simp only [fit, subtract_baseline_solverOk, ffrs_zeros, h1, hfind, truthy, truthyInt,
      Bool.false_eq_true, if_false, List.get?]
    rfl

/-- Membership in the pixel enumeration is exactly in-range-ness. -/
lemma ndindex_mem_iff {il jl i j : ℕ} : (i, j) ∈ Jpk.ndindex il jl ↔ i < il ∧ j < jl := by
  unfold Jpk.ndindex
  rw [List.mem_product]
  simp [List.mem_range]

/-- A `fit_all` task write never touches another pixel's cells. -/
lemma fitAllStep_ne (S : Solver) (H F : Grid2) (dep sp : Option ℚ) (tf : ℚ)
    (r : FitGrids) {ij : ℕ × ℕ} {i j : ℕ} (hne : ¬(i = ij.1 ∧ j = ij.2)) :
    (fitAllStep S H F dep sp tf r ij).cp i j = r.cp i j
    ∧ (fitAllStep S H F dep sp tf r ij).cperr i j = r.cperr i j
    ∧ (fitAllStep S H F dep sp tf r ij).E i j = r.E i j
    ∧ (fitAllStep S H F dep sp tf r ij).Eerr i j = r.Eerr i j := by
  unfold fitAllStep
  split
  · exact ⟨if_neg hne, if_neg hne, if_neg hne, if_neg hne⟩
  · exact ⟨rfl, rfl, rfl, rfl⟩

/-- The task loop leaves the cells of pixels outside the list unchanged. -/
lemma fitAllLoop_notmem (S : Solver) (H F : Grid2) (dep sp : Option ℚ) (tf : ℚ) :
    ∀ (l : List (ℕ × ℕ)) (r : FitGrids) (i j : ℕ), (i, j) ∉ l →
      (fitAllLoop S H F dep sp tf l r).cp i j = r.cp i j
      ∧ (fitAllLoop S H F dep sp tf l r).cperr i j = r.cperr i j
      ∧ (fitAllLoop S H F dep sp tf l r).E i j = r.E i j
      ∧ (fitAllLoop S H F dep sp tf l r).Eerr i j = r.Eerr i j := by
  intro l
  induction l with
  | nil => intro r i j _; exact ⟨rfl, rfl, rfl, rfl⟩
  | cons ij rest ih =>
    intro r i j hmem
    have hrest := ih (fitAllStep S H F dep sp tf r ij) i j
      fun hm => hmem (List.mem_cons_of_mem _ hm)
    have hne : ¬(i = ij.1 ∧ j = ij.2) := by
      intro hc
      apply hmem
      have hij : (i, j) = ij := by
        rw [hc.1, hc.2]
      rw [hij]
      exact List.mem_cons_self _ _
    have hstep := fitAllStep_ne S H F dep sp tf r hne
    exact ⟨hrest.1.trans hstep.1, hrest.2.1.trans hstep.2.1,
      hrest.2.2.1.trans hstep.2.2.1, hrest.2.2.2.trans hstep.2.2.2⟩

/-- The loop splits over list concatenation. -/
lemma fitAllLoop_append {S : Solver} {H F : Grid2} {dep sp : Option ℚ} {tf : ℚ} :
    ∀ (l1 l2 : List (ℕ × ℕ)) (r : FitGrids),
      fitAllLoop S H F dep sp tf (l1 ++ l2) r
        = fitAllLoop S H F dep sp tf l2 (fitAllLoop S H F dep sp tf l1 r) := by
  intro l1
  induction l1 with
  | nil => intro l2 r; rfl
  | cons ij rest ih =>
    intro l2 r
    simp only [List.cons_append, fitAllLoop]
    exact ih l2 (fitAllStep S H F dep sp tf r ij)

/-- A task writes its own pixel's four cells with exactly its fit outcome
(given they were still uninitialised). -/
lemma fitAllStep_self {S : Solver} {H F : Grid2} {dep sp : Option ℚ} {tf : ℚ}
    {r : FitGrids} {ij : ℕ × ℕ}
    (hcp : r.cp ij.1 ij.2 = none) (hcperr : r.cperr ij.1 ij.2 = none)
    (hE : r.E ij.1 ij.2 = none) (hEerr : r.Eerr ij.1 ij.2 = none) :
    ((fitAllStep S H F dep sp tf r ij).cp ij.1 ij.2,
      (fitAllStep S H F dep sp tf r ij).cperr ij.1 ij.2,
      (fitAllStep S H F dep sp tf r ij).E ij.1 ij.2,
      (fitAllStep S H F dep sp tf r ij).Eerr ij.1 ij.2)
      = cellsOfFit (fit S (H.curve ij.1 ij.2) (F.curve ij.1 ij.2) dep sp none tf) := by
  unfold fitAllStep fit_index cellsOfFit
  cases hf : fit S (H.curve ij.1 ij.2) (F.curve ij.1 ij.2) dep sp none tf with
  | ok val =>
    obtain ⟨⟨p0, p1⟩, e0, e1⟩ := val
    simp [hf, writeCell]
  | error e =>
    simp only [hf, hcp, hcperr, hE, hEerr]

/-- The central characterisation of `fit_all`: each in-range pixel's four
output cells are exactly what the fit of that pixel's own two curves
determines. -/
lemma fit_all_cells (S : Solver) (H F : Grid2) (dep sp : Option ℚ) (tf : ℚ)
    {i j : ℕ} (hi : i < F.rows) (hj : j < F.cols) :
    ((fit_all S H F dep sp tf).cp i j, (fit_all S H F dep sp tf).cperr i j,
      (fit_all S H F dep sp tf).E i j, (fit_all S H F dep sp tf).Eerr i j)
      = cellsOfFit (fit S (H.curve i j) (F.curve i j) dep sp none tf) := by
  unfold fit_all
  obtain ⟨l1, l2, hsplit⟩ := List.append_of_mem (ndindex_mem_iff.mpr ⟨hi, hj⟩)
  have hnodup := Jpk.nodup_ndindex F.rows F.cols
  rw [hsplit] at hnodup
  have hd := List.nodup_append.mp hnodup
  have hnotl2 : (i, j) ∉ l2 := (List.nodup_cons.mp hd.2.1).1
  have hnotl1 : (i, j) ∉ l1 := fun hm => hd.2.2 hm (List.mem_cons_self _ _)
  rw [hsplit, fitAllLoop_append]
  set r1 := fitAllLoop S H F dep sp tf l1 emptyGrids with hr1
  have hpre := fitAllLoop_notmem S H F dep sp tf l1 emptyGrids i j hnotl1
  simp only [fitAllLoop]
  have hloop2 := fitAllLoop_notmem S H F dep sp tf l2
    (fitAllStep S H F dep sp tf r1 (i, j)) i j hnotl2
  rw [hloop2.1, hloop2.2.1, hloop2.2.2.1, hloop2.2.2.2]
  exact fitAllStep_self hpre.1 hpre.2.1 hpre.2.2.1 hpre.2.2.2

/-- Out-of-range cells are never written by any task. -/
lemma fit_all_cells_out (S : Solver) (H F : Grid2) (dep sp : Option ℚ) (tf : ℚ)
    {i j : ℕ} (h : ¬(i < F.rows ∧ j < F.cols)) :
    (fit_all S H F dep sp tf).cp i j = none
    ∧ (fit_all S H F dep sp tf).cperr i j = none
    ∧ (fit_all S H F dep sp tf).E i j = none
    ∧ (fit_all S H F dep sp tf).Eerr i j = none :=
  fitAllLoop_notmem S H F dep sp tf _ emptyGrids i j fun hm => h (ndindex_mem_iff.mp hm)

end Hz

namespace Hz

/-- C6: each in-range cell of the four `fit_all` output grids equals the
corresponding component of the independent per-curve fit of that pixel's two
curves (first conjunct; a worker exception leaves all four cells
uninitialised, and a NaN fit result is written like any other, never
aborting the batch); consequently a cell depends only on its own pixel's
curves and the grid shape, so changing one pixel's curves changes at most
that pixel's four output cells (second conjunct). -/
theorem fit_all_pixel_independent :
    (∀ (S : Solver) (H F : Grid2) (depth setpoint : Option ℚ) (tf : ℚ) (i j : ℕ),
        i < F.rows → j < F.cols →
        ((fit_all S H F depth setpoint tf).cp i j,
          (fit_all S H F depth setpoint tf).cperr i j,
          (fit_all S H F depth setpoint tf).E i j,
          (fit_all S H F depth setpoint tf).Eerr i j)
          = cellsOfFit (fit S (H.curve i j) (F.curve i j) depth setpoint none tf))
    ∧ ∀ (S : Solver) (H F H2 F2 : Grid2) (depth setpoint : Option ℚ) (tf : ℚ) (i j : ℕ),
        F.rows = F2.rows → F.cols = F2.cols →
        H.curve i j = H2.curve i j → F.curve i j = F2.curve i j →
        (fit_all S H F depth setpoint tf).cp i j
            = (fit_all S H2 F2 depth setpoint tf).cp i j
        ∧ (fit_all S H F depth setpoint tf).cperr i j
            = (fit_all S H2 F2 depth setpoint tf).cperr i j
        ∧ (fit_all S H F depth setpoint tf).E i j
            = (fit_all S H2 F2 depth setpoint tf).E i j
        ∧ (fit_all S H F depth setpoint tf).Eerr i j
            = (fit_all S H2 F2 depth setpoint tf).Eerr i j := by
  constructor
  · intro S H F depth setpoint tf i j hi hj
    exact fit_all_cells S H F depth setpoint tf hi hj
  · intro S H F H2 F2 depth setpoint tf i j hrows hcols hH hF
    by_cases hin : i < F.rows ∧ j < F.cols
    · have h1 := fit_all_cells S H F depth setpoint tf hin.1 hin.2
      have h2 := fit_all_cells S H2 F2 depth setpoint tf
        (hrows ▸ hin.1) (hcols ▸ hin.2)
      rw [hH, hF] at h1
      have h12 := h1.trans h2.symm
      have e1 := congrArg Prod.fst h12
      have r1 := congrArg Prod.snd h12
      have e2 := congrArg Prod.fst r1
      have r2 := congrArg Prod.snd r1
      have e3 := congrArg Prod.fst r2
      have e4 := congrArg Prod.snd r2
      exact ⟨e1, e2, e3, e4⟩
    · have hin2 : ¬(i < F2.rows ∧ j < F2.cols) := by
        rw [← hrows, ← hcols]
        exact hin
      have h1 := fit_all_cells_out S H F depth setpoint tf hin
      have h2 := fit_all_cells_out S H2 F2 depth setpoint tf hin2
      exact ⟨h1.1.trans h2.1.symm, h1.2.1.trans h2.2.1.symm,
        h1.2.2.1.trans h2.2.2.1.symm, h1.2.2.2.trans h2.2.2.2.symm⟩

end Hz

namespace Hz

/-- With the converging oracle, the fit of the test curve returns the
written quadruple of zeros. -/
lemma fit_ok_eval :
    fit solverOk [5, 4, 3, 2, 1] [0, 0, 0, 0, 0] none none none 5
      = .ok ((some 0, some 0), (some 0, some 0)) := by
  simp only [fit, subtract_baseline_solverOk, ffrs_zeros, truthy, truthyInt,
    Bool.false_eq_true, if_false, List.get?]
  rfl

/-- C6 witness: on the concrete 1×2 grids, pixel `(0, 0)`'s four cells hold
exactly its own fit's components, and changing only pixel `(0, 1)`'s curve
leaves pixel `(0, 0)`'s cell unchanged. -/
theorem fit_all_pixel_independent_witness :
    ((fit_all solverOk gridH gridF none none 5).cp 0 0,
      (fit_all solverOk gridH gridF none none 5).cperr 0 0,
      (fit_all solverOk gridH gridF none none 5).E 0 0,
      (fit_all solverOk gridH gridF none none 5).Eerr 0 0)
      = (some (some 0), some (some 0), some (some 0), some (some 0))
    ∧ (fit_all solverOk gridH gridF none none 5).cp 0 0
        = (fit_all solverOk gridH2 gridF none none 5).cp 0 0 := by
  constructor
  · have h1 := fit_all_pixel_independent.1 solverOk gridH gridF none none 5 0 0
      Nat.one_pos (by decide)
    rw [h1, show gridH.curve 0 0 = [5, 4, 3, 2, 1] from rfl,
      show gridF.curve 0 0 = [0, 0, 0, 0, 0] from rfl, fit_ok_eval]
    rfl
  · exact (fit_all_pixel_independent.2 solverOk gridH gridF gridH2 gridF
      none none 5 0 0 rfl rfl rfl rfl).1

end Hz


namespace Hz

/-- The real part of `scipy.sqrt` of a real argument: the real square root
for nonnegative input, 0 for negative input (purely imaginary result). -/
lemma scimath_sqrt_re (r : ℝ) : (scimath_sqrt r).re = Real.sqrt r := by
  unfold scimath_sqrt
  by_cases hr : 0 ≤ r
  · rw [if_pos hr, Complex.ofReal_re]
  · rw [if_neg hr]
    have h1 : (Complex.I * ((Real.sqrt (-r) : ℝ) : ℂ)).re = 0 := by
      simp [Complex.mul_re]
    rw [h1, Eq.comm, Real.sqrt_eq_zero']
    exact le_of_not_le hr

/-- Unfolded form of the implemented model: the complex detour collapses to
the real square root (which is itself 0 on negative input). -/
lemma hertz_eq_sqrt (x xc E Rc nu : ℝ) :
    hertz x xc E Rc nu = 4/3 * E / (1 - nu^2) * Real.sqrt (Rc * (xc - x)^3) := by
  unfold hertz
  rw [Complex.re_ofReal_mul, scimath_sqrt_re]

/-- C8: with the fixed `Rc = 1e-6` and `nu = 1/2`, the implemented Hertz
model — a possibly complex square root of which only the real part is kept —
equals the explicitly clamped formula
`(4/3) * E / (1 - nu^2) * sqrt(Rc * max(0, xc - x)^3)` for every real
`x, xc, E`; in particular it returns 0 whenever `x ≥ xc`. -/
theorem hertz_real_part_eq_clamped :
    ∀ x xc E : ℝ,
      hertz x xc E (1/1000000) (1/2) = hertz_clamped x xc E (1/1000000) (1/2)
      ∧ (xc ≤ x → hertz x xc E (1/1000000) (1/2) = 0) := by
  intro x xc E
  have hRc : (0:ℝ) ≤ 1/1000000 := by norm_num
  have hzero : ∀ h : xc - x ≤ 0, Real.sqrt ((1/1000000) * (xc - x)^3) = 0 := by
    intro h
    have hcube : (xc - x)^3 ≤ 0 := Odd.pow_nonpos (by decide) h
    exact Real.sqrt_eq_zero'.mpr (mul_nonpos_iff.mpr (Or.inl ⟨hRc, hcube⟩))
  constructor
  · rw [hertz_eq_sqrt]
    unfold hertz_clamped
    rcases le_total x xc with hle | hle
    · rw [max_eq_right (sub_nonneg.mpr hle)]
    · have h1 : xc - x ≤ 0 := sub_nonpos.mpr hle
      rw [max_eq_left h1, hzero h1]
      norm_num
  · intro hle
    rw [hertz_eq_sqrt, hzero (sub_nonpos.mpr hle), mul_zero]

/-- C8 witness: at `x = 5 ≥ xc = 4` the two formulas agree and the model
value is 0. -/
theorem hertz_real_part_eq_clamped_witness :
    hertz 5 4 1 (1/1000000) (1/2) = hertz_clamped 5 4 1 (1/1000000) (1/2)
    ∧ (4:ℝ) ≤ 5 ∧ hertz 5 4 1 (1/1000000) (1/2) = 0 :=
  ⟨(hertz_real_part_eq_clamped 5 4 1).1, by norm_num,
    (hertz_real_part_eq_clamped 5 4 1).2 (by norm_num)⟩

/-- The rational decision procedure `gtFacSqrt` decides exactly the real
comparison `d > f * sqrt v` used by the threshold test (for `v ≥ 0`, which a
variance always is). -/
lemma gtFacSqrt_iff (d f v : ℚ) (hv : (0:ℚ) ≤ v) :
    gtFacSqrt d f v = true ↔ (f : ℝ) * Real.sqrt (v : ℝ) < (d : ℝ) := by
  have hv' : (0:ℝ) ≤ (v:ℝ) := by exact_mod_cast hv
  have hs : (0:ℝ) ≤ Real.sqrt (v:ℝ) := Real.sqrt_nonneg _
  have hsq : Real.sqrt (v:ℝ) ^ 2 = (v:ℝ) := Real.sq_sqrt hv'
  unfold gtFacSqrt
  by_cases hf : (0:ℚ) ≤ f
  · have hf' : (0:ℝ) ≤ (f:ℝ) := by exact_mod_cast hf
    have hfs : (0:ℝ) ≤ (f:ℝ) * Real.sqrt (v:ℝ) := mul_nonneg hf' hs
    rw [if_pos hf]
    simp only [Bool.and_eq_true, decide_eq_true_eq]
    constructor
    · rintro ⟨hd, hlt⟩
      have hd' : (0:ℝ) < (d:ℝ) := by exact_mod_cast hd
      have hlt' : (f:ℝ)^2 * (v:ℝ) < (d:ℝ)^2 := by exact_mod_cast hlt
      refine lt_of_pow_lt_pow_left₀ 2 (le_of_lt hd') ?_
      rw [mul_pow, hsq]
      exact hlt'
    · intro hlt
      have hd' : (0:ℝ) < (d:ℝ) := lt_of_le_of_lt hfs hlt
      refine ⟨by exact_mod_cast hd', ?_⟩
      have h2 : ((f:ℝ) * Real.sqrt (v:ℝ))^2 < (d:ℝ)^2 := by
        apply pow_lt_pow_left₀ hlt hfs
        norm_num
      rw [mul_pow, hsq] at h2
      exact_mod_cast h2
  · have hf0 : f < 0 := lt_of_not_le hf
    have hf' : (f:ℝ) < 0 := by exact_mod_cast hf0
    rw [if_neg hf]
    by_cases hd : (0:ℚ) ≤ d
    · rw [if_pos hd]
      have hd' : (0:ℝ) ≤ (d:ℝ) := by exact_mod_cast hd
      have hbool : (!(decide (d = 0) && decide (v = 0))) = true ↔ ¬(d = 0 ∧ v = 0) := by
        simp only [Bool.not_eq_true', Bool.and_eq_false_iff, decide_eq_false_iff_not,
          not_and_or]
      rw [hbool]
      constructor
      · intro hb
        by_cases hd0 : d = 0
        · have hv0 : v ≠ 0 := fun h => hb ⟨hd0, h⟩
          have hvpos : (0:ℝ) < (v:ℝ) := by
            rcases lt_or_eq_of_le hv with h | h
            · exact_mod_cast h
            · exact absurd h.symm hv0
          have hspos : 0 < Real.sqrt (v:ℝ) := Real.sqrt_pos.mpr hvpos
          have : (f:ℝ) * Real.sqrt (v:ℝ) < 0 := mul_neg_of_neg_of_pos hf' hspos
          have hd0' : (d:ℝ) = 0 := by exact_mod_cast hd0
          rw [hd0']
          exact this
        · have hdpos : (0:ℝ) < (d:ℝ) := by
            rcases lt_or_eq_of_le hd with h | h
            · exact_mod_cast h
            · exact absurd h.symm hd0
          have hfs : (f:ℝ) * Real.sqrt (v:ℝ) ≤ 0 :=
            mul_nonpos_iff.mpr (Or.inr ⟨le_of_lt hf', hs⟩)
          exact lt_of_le_of_lt hfs hdpos
      · intro hlt hc
        have hd0' : (d:ℝ) = 0 := by exact_mod_cast hc.1
        have hv0' : (v:ℝ) = 0 := by exact_mod_cast hc.2
        rw [hd0', hv0', Real.sqrt_zero, mul_zero] at hlt
        exact lt_irrefl 0 hlt
    · rw [if_neg hd]
      have hd0 : d < 0 := lt_of_not_le hd
      have hd' : (d:ℝ) < 0 := by exact_mod_cast hd0
      simp only [decide_eq_true_eq]
      constructor
      · intro hlt
        have hlt' : (d:ℝ)^2 < (f:ℝ)^2 * (v:ℝ) := by exact_mod_cast hlt
        have h2 : (-(d:ℝ))^2 < (-((f:ℝ) * Real.sqrt (v:ℝ)))^2 := by
          rw [neg_sq, neg_sq, mul_pow, hsq]
          exact hlt'
        have hfs2 : (f:ℝ) * Real.sqrt (v:ℝ) ≤ 0 :=
          mul_nonpos_iff.mpr (Or.inr ⟨le_of_lt hf', hs⟩)
        have h3 : -(d:ℝ) < -((f:ℝ) * Real.sqrt (v:ℝ)) :=
          lt_of_pow_lt_pow_left₀ 2 (by linarith) h2
        linarith
      · intro hlt
        have h1 : (0:ℝ) ≤ -(d:ℝ) := by linarith
        have h2 : -(d:ℝ) < -((f:ℝ) * Real.sqrt (v:ℝ)) := by linarith
        have h3 : (-(d:ℝ))^2 < (-((f:ℝ) * Real.sqrt (v:ℝ)))^2 := by
          apply pow_lt_pow_left₀ h2 h1
          norm_num
        rw [neg_sq, neg_sq, mul_pow, hsq] at h3
        exact_mod_cast h3

end Hz
